import Mathlib

/-!
Verification of the real-time streaming and scan-monitoring subsystem of the
Shodan CLI (src/shodan/__main__.py), shallowly embedded in Lean.

The embedding covers:
  - the stream command consumer loop (lines 1159-1299): record limiting,
    day-based output rotation, the per-exception-class handlers;
  - the scan submit monitoring session (lines 777-967): identity-based
    deduplication, the 60-second status checks, the per-exception-class
    handlers, and the guaranteed alert cleanup in the finally block.

Machine integers are modelled as Nat / Int.  Wall-clock readings and the
results of remote calls are inputs (event lists and oracles), so each run of
the embedded code is a pure function of those inputs.
-/

namespace ShodanCLI

/-! ### Decimal rendering, as produced by Python str()

Line 830 builds the dedup cache key by string formatting, so the embedding
needs an executable decimal renderer together with an injectivity proof.
The renderer uses explicit fuel so that it reduces inside the kernel. -/

/-- Decimal digits of a number, least significant first; the first argument
is fuel (any fuel at least the number itself gives the true digits). -/
def natDigits : Nat → Nat → List Nat
  | 0, _ => []
  | fuel + 1, n => if n = 0 then [] else n % 10 :: natDigits fuel (n / 10)

/-- Reassemble a number from its digits, least significant first. -/
def unDigits : List Nat → Nat
  | [] => 0
  | d :: r => d + 10 * unDigits r

/-- The character of one decimal digit. -/
def digChar (d : Nat) : Char := Char.ofNat (48 + d)

/-- Decimal rendering of a natural number, as produced by Python str. -/
def natStr (n : Nat) : String :=
  if n = 0 then "0" else String.mk (((natDigits n n).map digChar).reverse)

theorem natDigits_lt_ten : ∀ (fuel n : Nat), ∀ d ∈ natDigits fuel n, d < 10 := by
  intro fuel
  induction fuel with
  | zero => intro n d hd; simp [natDigits] at hd
  | succ f ih =>
    intro n d hd
    by_cases h0 : n = 0
    · simp [natDigits, h0] at hd
    · simp only [natDigits, if_neg h0, List.mem_cons] at hd
      rcases hd with h | h
      · subst h; exact Nat.mod_lt n (by omega)
      · exact ih _ _ h

theorem unDigits_natDigits : ∀ (fuel n : Nat), n ≤ fuel → unDigits (natDigits fuel n) = n := by
  intro fuel
  induction fuel with
  | zero => intro n h; interval_cases n; simp [natDigits, unDigits]
  | succ f ih =>
    intro n h
    by_cases h0 : n = 0
    · simp [natDigits, h0, unDigits]
    · have hdiv : n / 10 ≤ f := by
        have : n / 10 < n := Nat.div_lt_self (Nat.pos_of_ne_zero h0) (by omega)
        omega
      simp only [natDigits, if_neg h0, unDigits, ih _ hdiv]
      omega

theorem digChar_inj : ∀ a, a < 10 → ∀ b, b < 10 → digChar a = digChar b → a = b := by
  decide

theorem digChar_ne_colon : ∀ a, a < 10 → digChar a ≠ ':' := by
  decide

theorem map_digChar_inj : ∀ (l1 l2 : List Nat), (∀ d ∈ l1, d < 10) → (∀ d ∈ l2, d < 10) →
    l1.map digChar = l2.map digChar → l1 = l2 := by
  intro l1
  induction l1 with
  | nil => intro l2 _ _ h; cases l2 <;> simp_all
  | cons a r ih =>
    intro l2 h1 h2 h
    cases l2 with
    | nil => simp at h
    | cons b s =>
      simp only [List.map_cons, List.cons.injEq] at h
      have ha : a < 10 := h1 a (by simp)
      have hb : b < 10 := h2 b (by simp)
      have hab := digChar_inj a ha b hb h.1
      have hrs := ih s (fun d hd => h1 d (by simp [hd])) (fun d hd => h2 d (by simp [hd])) h.2
      simp [hab, hrs]

theorem natStr_ne_colon : ∀ n, ∀ c ∈ (natStr n).data, c ≠ ':' := by
  intro n c hc
  unfold natStr at hc
  by_cases h0 : n = 0
  · simp only [h0, if_pos rfl] at hc
    have : c = '0' := by simpa using hc
    subst this; decide
  · simp only [if_neg h0] at hc
    have hc2 : c ∈ ((natDigits n n).map digChar).reverse := hc
    rw [List.mem_reverse] at hc2
    rcases List.mem_map.mp hc2 with ⟨d, hd, rfl⟩
    exact digChar_ne_colon d (natDigits_lt_ten n n d hd)

theorem natStr_inj : ∀ n m, natStr n = natStr m → n = m := by
  intro n m h
  have hdata : (natStr n).data = (natStr m).data := by rw [h]
  unfold natStr at hdata
  by_cases hn : n = 0 <;> by_cases hm : m = 0
  · omega
  · exfalso
    simp only [if_pos hn, if_neg hm] at hdata
    have hrev : (natDigits m m).map digChar = ['0'] := by
      have := congrArg List.reverse hdata
      simpa using this.symm
    have hdig : natDigits m m = [0] := by
      cases hd : natDigits m m with
      | nil => rw [hd] at hrev; simp at hrev
      | cons a r =>
        rw [hd] at hrev
        cases r with
        | nil =>
          simp only [List.map_cons, List.map_nil, List.cons.injEq, and_true] at hrev
          have ha : a < 10 := natDigits_lt_ten m m a (by rw [hd]; simp)
          have : a = 0 := digChar_inj a ha 0 (by omega) (by rw [hrev]; decide)
          simp [this]
        | cons b s => simp at hrev
    have := unDigits_natDigits m m (Nat.le_refl m)
    rw [hdig] at this
    simp [unDigits] at this
    omega
  · exfalso
    simp only [if_neg hn, if_pos hm] at hdata
    have hrev : (natDigits n n).map digChar = ['0'] := by
      have := congrArg List.reverse hdata
      simpa using this
    have hdig : natDigits n n = [0] := by
      cases hd : natDigits n n with
      | nil => rw [hd] at hrev; simp at hrev
      | cons a r =>
        rw [hd] at hrev
        cases r with
        | nil =>
          simp only [List.map_cons, List.map_nil, List.cons.injEq, and_true] at hrev
          have ha : a < 10 := natDigits_lt_ten n n a (by rw [hd]; simp)
          have : a = 0 := digChar_inj a ha 0 (by omega) (by rw [hrev]; decide)
          simp [this]
        | cons b s => simp at hrev
    have := unDigits_natDigits n n (Nat.le_refl n)
    rw [hdig] at this
    simp [unDigits] at this
    omega
  · simp only [if_neg hn, if_neg hm] at hdata
    have hrev : ((natDigits n n).map digChar).reverse = ((natDigits m m).map digChar).reverse :=
      hdata
    have hmap : (natDigits n n).map digChar = (natDigits m m).map digChar := by
      have := congrArg List.reverse hrev
      simpa using this
    have hdig := map_digChar_inj _ _ (natDigits_lt_ten n n) (natDigits_lt_ten m m) hmap
    have h1 := unDigits_natDigits n n (Nat.le_refl n)
    have h2 := unDigits_natDigits m m (Nat.le_refl m)
    rw [hdig] at h1
    omega

/-- Splitting a character list at a separator that is known not to occur in
either right part is unambiguous. -/
theorem colon_split : ∀ (l1 r1 l2 r2 : List Char), ':' ∉ r1 → ':' ∉ r2 →
    l1 ++ ':' :: r1 = l2 ++ ':' :: r2 → l1 = l2 ∧ r1 = r2 := by
  intro l1
  induction l1 with
  | nil =>
    intro r1 l2 r2 h1 h2 h
    cases l2 with
    | nil => simpa using h
    | cons c l2t =>
      exfalso
      simp only [List.nil_append, List.cons_append, List.cons.injEq] at h
      apply h1
      rw [h.2]
      simp
  | cons c l1t ih =>
    intro r1 l2 r2 h1 h2 h
    cases l2 with
    | nil =>
      exfalso
      simp only [List.cons_append, List.nil_append, List.cons.injEq] at h
      apply h2
      rw [← h.2, ← h.1]
      simp
    | cons d l2t =>
      simp only [List.cons_append, List.cons.injEq] at h
      have := ih r1 l2t r2 h1 h2 h.2
      simp [h.1, this.1, this.2]

/-! ### Scalar field values -/

/-- A scalar value found in the ip or ipv6 slot of a banner: the service
reports ipv4 addresses as integers and ipv6 addresses as strings. -/
inductive FieldVal where
  | intVal (n : Int)
  | strVal (s : String)
  deriving DecidableEq

/-- Python str of a field value, as used by string formatting. -/
def fieldStr : FieldVal → String
  | .intVal n => if n < 0 then "-" ++ natStr n.natAbs else natStr n.toNat
  | .strVal s => s

/-! ### The stream command (lines 1159-1299)

The consumer loop is driven by what the push channel produces: either a
banner record, or one of the exception classes handled at lines 1288-1299.
The wall-clock day read by timestr (line 73) at the moment a record is
processed is an input carried on the event. -/

/-- One banner record as consumed by the stream command: an opaque payload
identifier, the UTC day of the record timestamp field (which the stream
loop never reads), and the placeholder marker. -/
structure SBanner where
  pid : Nat
  tsDay : Nat
  placeholder : Bool
  deriving DecidableEq

/-- One output file of the stream command: the UTC day it is named after,
the gzip compression level it was opened with, and the records written to
it, each paired with the wall-clock day current at the write. -/
structure StreamFile where
  day : Nat
  level : Nat
  writes : List (SBanner × Nat)
  deriving DecidableEq

/-- Embedding of open_streaming_file (lines 76-77): opens the day-named
file in the data directory at the given compression level. -/
def open_streaming_file (day : Nat) (compresslevel : Nat) : StreamFile :=
  { day := day, level := compresslevel, writes := [] }

/-- The call of open_streaming_file at line 1257 omits the compresslevel
argument, so the declared default of 9 applies. -/
def open_streaming_file_default (day : Nat) : StreamFile :=
  open_streaming_file day 9

/-- Modelled from the spec: helpers.write_banner lives in shodan.helpers,
which is not under src/.  Per the RecordSink contract it serializes one
record as one line and appends it, skipping records marked placeholder.
The wall-clock day current at the write is recorded alongside. -/
def write_banner (f : StreamFile) (b : SBanner) (day : Nat) : StreamFile :=
  if b.placeholder then f else { f with writes := f.writes ++ [(b, day)] }

/-- The stream command options that reach the consumer loop. -/
structure StreamConfig where
  limit : Int
  datadir : Bool
  quiet : Bool
  compresslevel : Nat
  startDay : Nat
  deriving DecidableEq

/-- What the push channel produces at each step of the consumer loop: a
banner (with the wall-clock day at which it is processed), or one of the
exception classes of lines 1288-1299. -/
inductive StreamEvent where
  | banner (b : SBanner) (wallDay : Nat)
  | timeoutExc
  | keyInterrupt
  | apiError (msg : String)
  | otherError
  deriving DecidableEq

/-- The mutable state of the stream consumer loop. -/
structure StreamState where
  counter : Int
  quit : Bool
  lastTime : Nat
  files : List StreamFile
  printed : List SBanner
  sleeps : List Nat
  reconnects : Nat
  aborted : Option String
  deriving DecidableEq

/-- Lines 1232-1238: counter 0, quit False, last_time read from the wall
clock at startup and, when a data directory is configured, an output file
opened eagerly for that day with the user-supplied compresslevel. -/
def streamInit (cfg : StreamConfig) : StreamState :=
  { counter := 0
    quit := false
    lastTime := cfg.startDay
    files := if cfg.datadir then [open_streaming_file cfg.startDay cfg.compresslevel] else []
    printed := []
    sleeps := []
    reconnects := 0
    aborted := none }

/-- Lines 1253-1257: when the wall-clock day changed, close the open file
and open the day-named one, with the compresslevel argument omitted. -/
def rotateIfNeeded (day : Nat) (st : StreamState) : StreamState :=
  if day ≠ st.lastTime then
    { st with lastTime := day, files := open_streaming_file_default day :: st.files }
  else st

/-- Write one record to the currently open file, the head of files. -/
def writeHead (fs : List StreamFile) (b : SBanner) (day : Nat) : List StreamFile :=
  match fs with
  | [] => []
  | f :: rest => write_banner f b day :: rest

/-- Lines 1251-1258: rotation check followed by the write, performed only
when a data directory is configured. -/
def persistBanner (cfg : StreamConfig) (st : StreamState) (b : SBanner) (day : Nat) :
    StreamState :=
  if cfg.datadir then
    { rotateIfNeeded day st with files := writeHead (rotateIfNeeded day st).files b day }
  else st

/-- Lines 1260-1287: print the banner row unless quiet. -/
def printBanner (cfg : StreamConfig) (st : StreamState) (b : SBanner) : StreamState :=
  if cfg.quiet then st else { st with printed := st.printed ++ [b] }

/-- Lines 1243-1245: the counter is incremented only when a positive limit
is configured. -/
def bumpCounter (cfg : StreamConfig) (st : StreamState) : Int :=
  if 0 < cfg.limit then st.counter + 1 else st.counter

/-- One iteration of the consumer loop, lines 1240-1299.  A banner runs the
loop body: the limit check of lines 1243-1249 comes first and breaks out,
without writing, once the counter exceeds the limit; otherwise the record
is persisted and printed.  Each exception class runs its handler. -/
def streamStep (cfg : StreamConfig) (st : StreamState) : StreamEvent → StreamState
  | .banner b day =>
    if 0 < cfg.limit ∧ cfg.limit < bumpCounter cfg st then
      { st with counter := bumpCounter cfg st, quit := true }
    else
      printBanner cfg (persistBanner cfg { st with counter := bumpCounter cfg st } b day) b
  | .timeoutExc => { st with aborted := some ("Connection timed out") }
  | .keyInterrupt => { st with quit := true }
  | .apiError msg => { st with aborted := some msg }
  | .otherError => { st with sleeps := st.sleeps ++ [1], reconnects := st.reconnects + 1 }

/-- The while-loop of line 1240 has ended: quit was set, or a
ClickException was raised. -/
def streamHalted (st : StreamState) : Bool :=
  st.quit || st.aborted.isSome

/-- Run of the consumer loop over the events the channel produces. -/
def streamRun (cfg : StreamConfig) : List StreamEvent → StreamState → StreamState
  | [], st => st
  | ev :: evs, st =>
    if streamHalted st then st else streamRun cfg evs (streamStep cfg st ev)

/-- All records written across the output files, oldest file first (files
are kept most recent first). -/
def filesWrites : List StreamFile → List (SBanner × Nat)
  | [] => []
  | f :: rest => filesWrites rest ++ f.writes

/-- All records the stream run durably wrote, in write order. -/
def allWrites (st : StreamState) : List (SBanner × Nat) :=
  filesWrites st.files

/-! ### Helper lemmas about the stream consumer -/

theorem streamRun_halted (cfg : StreamConfig) (evs : List StreamEvent) (st : StreamState)
    (h : streamHalted st = true) : streamRun cfg evs st = st := by
  cases evs with
  | nil => rfl
  | cons ev evs => simp [streamRun, h]

theorem streamRun_cons (cfg : StreamConfig) (ev : StreamEvent) (evs : List StreamEvent)
    (st : StreamState) (h : streamHalted st = false) :
    streamRun cfg (ev :: evs) st = streamRun cfg evs (streamStep cfg st ev) := by
  simp [streamRun, h]

theorem streamHalted_false (st : StreamState) (hq : st.quit = false) (ha : st.aborted = none) :
    streamHalted st = false := by
  simp [streamHalted, hq, ha]

theorem printBanner_fields (cfg : StreamConfig) (st : StreamState) (b : SBanner) :
    (printBanner cfg st b).counter = st.counter ∧
    (printBanner cfg st b).quit = st.quit ∧
    (printBanner cfg st b).aborted = st.aborted ∧
    (printBanner cfg st b).files = st.files ∧
    (printBanner cfg st b).lastTime = st.lastTime ∧
    (printBanner cfg st b).sleeps = st.sleeps ∧
    (printBanner cfg st b).reconnects = st.reconnects := by
  unfold printBanner
  split_ifs <;> simp

theorem persistBanner_fields (cfg : StreamConfig) (st : StreamState) (b : SBanner) (day : Nat) :
    (persistBanner cfg st b day).counter = st.counter ∧
    (persistBanner cfg st b day).quit = st.quit ∧
    (persistBanner cfg st b day).aborted = st.aborted ∧
    (persistBanner cfg st b day).printed = st.printed ∧
    (persistBanner cfg st b day).sleeps = st.sleeps ∧
    (persistBanner cfg st b day).reconnects = st.reconnects := by
  unfold persistBanner rotateIfNeeded
  split_ifs <;> simp

theorem persistBanner_writes (cfg : StreamConfig) (st : StreamState) (b : SBanner) (day : Nat)
    (hd : cfg.datadir = true) (hf : st.files ≠ []) (hp : b.placeholder = false) :
    filesWrites (persistBanner cfg st b day).files = filesWrites st.files ++ [(b, day)] ∧
    (persistBanner cfg st b day).files ≠ [] := by
  unfold persistBanner rotateIfNeeded
  rw [if_pos hd]
  split_ifs with hrot
  · simp only [writeHead, write_banner, open_streaming_file_default, open_streaming_file, hp,
      if_neg (by simp [hp] : ¬ b.placeholder = true)]
    simp [filesWrites]
  · cases hfs : st.files with
    | nil => exact absurd hfs hf
    | cons f rest =>
      simp only [hfs, writeHead, write_banner, if_neg (by simp [hp] : ¬ b.placeholder = true)]
      simp [filesWrites, List.append_assoc]

theorem bumpCounter_pos (cfg : StreamConfig) (st : StreamState) (hl : 0 < cfg.limit) :
    bumpCounter cfg st = st.counter + 1 := by
  unfold bumpCounter
  rw [if_pos hl]

theorem streamStep_banner_ok (cfg : StreamConfig) (st : StreamState) (b : SBanner) (day : Nat)
    (hd : cfg.datadir = true) (hf : st.files ≠ []) (hp : b.placeholder = false)
    (hl : 0 < cfg.limit) (hno : ¬ cfg.limit < st.counter + 1) :
    (streamStep cfg st (.banner b day)).counter = st.counter + 1 ∧
    (streamStep cfg st (.banner b day)).quit = st.quit ∧
    (streamStep cfg st (.banner b day)).aborted = st.aborted ∧
    (streamStep cfg st (.banner b day)).files ≠ [] ∧
    allWrites (streamStep cfg st (.banner b day)) = allWrites st ++ [(b, day)] := by
  have hb := bumpCounter_pos cfg st hl
  have hcond : ¬ (0 < cfg.limit ∧ cfg.limit < bumpCounter cfg st) := by
    rw [hb]; push_neg; intro _; omega
  simp only [streamStep, if_neg hcond]
  have hpw := persistBanner_writes cfg { st with counter := bumpCounter cfg st } b day hd hf hp
  have hpf := persistBanner_fields cfg { st with counter := bumpCounter cfg st } b day
  have hpr := printBanner_fields cfg
    (persistBanner cfg { st with counter := bumpCounter cfg st } b day) b
  unfold allWrites
  refine ⟨?_, ?_, ?_, ?_, ?_⟩
  · rw [hpr.1, hpf.1]; exact hb
  · rw [hpr.2.1, hpf.2.1]
  · rw [hpr.2.2.1, hpf.2.2.1]
  · rw [hpr.2.2.2.1]; exact hpw.2
  · rw [hpr.2.2.2.1]; exact hpw.1

/-- Core loop lemma for the record limit: once the limit would be exceeded,
the consumer stops on the record that trips the check, without writing it;
the records written are exactly the prefix of length limit minus counter. -/
theorem stream_limit_overflow (cfg : StreamConfig) :
    ∀ (bs : List (SBanner × Nat)) (st : StreamState),
      cfg.datadir = true → st.quit = false → st.aborted = none → st.files ≠ [] →
      (∀ p ∈ bs, (p : SBanner × Nat).1.placeholder = false) →
      0 < cfg.limit → st.counter ≤ cfg.limit → cfg.limit < st.counter + bs.length →
      allWrites (streamRun cfg (bs.map (fun p => StreamEvent.banner p.1 p.2)) st)
          = allWrites st ++ bs.take (cfg.limit - st.counter).toNat ∧
        (streamRun cfg (bs.map (fun p => StreamEvent.banner p.1 p.2)) st).quit = true ∧
        (streamRun cfg (bs.map (fun p => StreamEvent.banner p.1 p.2)) st).counter
          = cfg.limit + 1 := by
  intro bs
  induction bs with
  | nil =>
    intro st _ _ _ _ _ _ hc hlen
    simp only [List.length_nil] at hlen
    omega
  | cons p rest ih =>
    intro st hd hq ha hf hp hl hc hlen
    rw [List.map_cons, streamRun_cons cfg _ _ st (streamHalted_false st hq ha)]
    have hph : p.1.placeholder = false := hp p (by simp)
    by_cases hcase : cfg.limit < st.counter + 1
    · have hceq : st.counter = cfg.limit := by omega
      have hb := bumpCounter_pos cfg st hl
      have hstep : streamStep cfg st (.banner p.1 p.2)
          = { st with counter := st.counter + 1, quit := true } := by
        simp only [streamStep, hb]
        rw [if_pos ⟨hl, show cfg.limit < st.counter + 1 by omega⟩]
      rw [hstep, streamRun_halted cfg _ _ (by simp [streamHalted])]
      have htake : (cfg.limit - st.counter).toNat = 0 := by omega
      refine ⟨?_, by simp, by simp; omega⟩
      simp [allWrites, htake, hceq]
    · have hstep := streamStep_banner_ok cfg st p.1 p.2 hd hf hph hl hcase
      have ihres := ih (streamStep cfg st (.banner p.1 p.2))
        hd (by rw [hstep.2.1]; exact hq) (by rw [hstep.2.2.1]; exact ha) hstep.2.2.2.1
        (fun q hqmem => hp q (by simp [hqmem]))
        hl (by rw [hstep.1]; omega)
        (by rw [hstep.1]; simp only [List.length_cons] at hlen; push_cast at hlen ⊢; omega)
      refine ⟨?_, ihres.2.1, ihres.2.2⟩
      rw [ihres.1, hstep.2.2.2.2, hstep.1]
      have htk : (cfg.limit - st.counter).toNat = (cfg.limit - (st.counter + 1)).toNat + 1 := by
        omega
      rw [htk, List.take_succ_cons, List.append_assoc]
      simp

/-- The per-event side condition for the rotation invariant: placeholder
records are skipped by the sink, so the lazily-created-file facts are
stated for runs whose records are not placeholders. -/
def evOk : StreamEvent → Prop
  | .banner b _ => b.placeholder = false
  | _ => True

/-- Invariant of the rotation state: files are present exactly when a data
directory is configured, the open file is named after the current day, each
rotated file was opened with the default level 9 and holds at least the
record whose arrival created it, every write carries the day of its file,
and the startup file keeps the user-supplied compression level. -/
def FilesInv (cfg : StreamConfig) (st : StreamState) : Prop :=
  (cfg.datadir = true → st.files ≠ []) ∧
  (cfg.datadir = true → ∀ f ∈ st.files.head?, f.day = st.lastTime) ∧
  (∀ f ∈ st.files.dropLast, f.level = 9 ∧ f.writes ≠ []) ∧
  (∀ f ∈ st.files, ∀ w ∈ f.writes, w.2 = f.day) ∧
  (∀ f ∈ st.files.getLast?, f.level = cfg.compresslevel)

theorem filesInv_init (cfg : StreamConfig) : FilesInv cfg (streamInit cfg) := by
  unfold FilesInv streamInit open_streaming_file
  split_ifs with h <;> simp [h]

theorem filesInv_persist (cfg : StreamConfig) (st2 : StreamState) (b : SBanner) (day : Nat)
    (hp : b.placeholder = false)
    (h1 : cfg.datadir = true → st2.files ≠ [])
    (h2 : cfg.datadir = true → ∀ f ∈ st2.files.head?, f.day = st2.lastTime)
    (h3 : ∀ f ∈ st2.files.dropLast, f.level = 9 ∧ f.writes ≠ [])
    (h4 : ∀ f ∈ st2.files, ∀ w ∈ f.writes, w.2 = f.day)
    (h5 : ∀ f ∈ st2.files.getLast?, f.level = cfg.compresslevel) :
    FilesInv cfg (persistBanner cfg st2 b day) := by
  by_cases hdat : cfg.datadir = true
  case neg =>
    have hpb : persistBanner cfg st2 b day = st2 := by
      unfold persistBanner
      rw [if_neg hdat]
    rw [hpb]
    exact ⟨h1, h2, h3, h4, h5⟩
  case pos =>
  have hpb : persistBanner cfg st2 b day
      = { rotateIfNeeded day st2 with
          files := writeHead (rotateIfNeeded day st2).files b day } := by
    unfold persistBanner
    rw [if_pos hdat]
  rw [hpb]
  cases hfs : st2.files with
  | nil => exact absurd hfs (h1 hdat)
  | cons f rest =>
    by_cases hrot : day ≠ st2.lastTime
    · -- rotation: a fresh default-level file is opened and written to
      have hr : rotateIfNeeded day st2
          = { st2 with
              lastTime := day
              files := open_streaming_file_default day :: st2.files } := by
        unfold rotateIfNeeded
        rw [if_pos hrot]
      rw [hr]
      simp only [hfs, writeHead, write_banner, open_streaming_file_default,
        open_streaming_file, hp, Bool.false_eq_true, if_false, List.nil_append]
      refine ⟨?_, ?_, ?_, ?_, ?_⟩
      · intro _
        simp
      · intro _ g hg
        simp only [List.head?_cons, Option.mem_def, Option.some.injEq] at hg
        subst hg
        rfl
      · intro g hg
        simp only [List.dropLast_cons₂] at hg
        rcases List.mem_cons.mp hg with hcase | hcase
        · subst hcase
          simp
        · have hmem : g ∈ st2.files.dropLast := by
            rw [hfs]
            exact hcase
          exact h3 g hmem
      · intro g hg
        simp only [List.mem_cons] at hg
        rcases hg with hcase | hcase
        · subst hcase
          intro w hw
          simp only [List.mem_singleton] at hw
          simp [hw]
        · exact h4 g (by rw [hfs]; simp [hcase])
      · intro g hg
        simp only [List.getLast?_cons_cons] at hg
        exact h5 g (by rw [hfs]; exact hg)
    · -- same day: the record is appended to the open file
      have heq : day = st2.lastTime := by
        push_neg at hrot
        exact hrot
      have hr : rotateIfNeeded day st2 = st2 := by
        unfold rotateIfNeeded
        rw [if_neg (by push_neg; exact heq)]
      rw [hr]
      have hday : f.day = st2.lastTime := by
        apply h2 hdat
        rw [hfs]
        rfl
      simp only [hfs, writeHead, write_banner, hp, Bool.false_eq_true, if_false]
      refine ⟨?_, ?_, ?_, ?_, ?_⟩
      · intro _
        simp
      · intro _ g hg
        simp only [List.head?_cons, Option.mem_def, Option.some.injEq] at hg
        subst hg
        simpa using hday
      · intro g hg
        cases rest with
        | nil => simp at hg
        | cons f2 rest2 =>
          simp only [List.dropLast_cons₂] at hg
          rcases List.mem_cons.mp hg with hcase | hcase
          · have hfmem : f ∈ st2.files.dropLast := by
              rw [hfs, List.dropLast_cons₂]
              simp
            have hgood := h3 f hfmem
            subst hcase
            refine ⟨by simpa using hgood.1, by simp⟩
          · have hfmem : g ∈ st2.files.dropLast := by
              rw [hfs, List.dropLast_cons₂]
              simp [hcase]
            exact h3 g hfmem
      · intro g hg w hw
        rcases List.mem_cons.mp hg with hcase | hcase
        · subst hcase
          simp only [List.mem_append, List.mem_singleton] at hw
          rcases hw with hold | hnew
          · exact h4 f (by rw [hfs]; simp) w hold
          · simp [hnew, hday, heq]
        · exact h4 g (by rw [hfs]; simp [hcase]) w hw
      · intro g hg
        cases rest with
        | nil =>
          simp only [List.getLast?_singleton, Option.mem_def, Option.some.injEq] at hg
          have hfl : f.level = cfg.compresslevel := by
            apply h5
            rw [hfs]
            simp
          subst hg
          simpa using hfl
        | cons f2 rest2 =>
          simp only [List.getLast?_cons_cons] at hg
          apply h5
          rw [hfs, List.getLast?_cons_cons]
          exact hg

theorem filesInv_step (cfg : StreamConfig) (st : StreamState) (ev : StreamEvent)
    (hinv : FilesInv cfg st) (hev : evOk ev) : FilesInv cfg (streamStep cfg st ev) := by
  obtain ⟨h1, h2, h3, h4, h5⟩ := hinv
  cases ev with
  | timeoutExc => exact ⟨h1, h2, h3, h4, h5⟩
  | keyInterrupt => exact ⟨h1, h2, h3, h4, h5⟩
  | apiError msg => exact ⟨h1, h2, h3, h4, h5⟩
  | otherError => exact ⟨h1, h2, h3, h4, h5⟩
  | banner b day =>
    have hp : b.placeholder = false := hev
    by_cases hquit : 0 < cfg.limit ∧ cfg.limit < bumpCounter cfg st
    · simp only [streamStep, if_pos hquit]
      exact ⟨h1, h2, h3, h4, h5⟩
    · simp only [streamStep, if_neg hquit]
      have hpreserve : ∀ st2 : StreamState,
          FilesInv cfg st2 → FilesInv cfg (printBanner cfg st2 b) := by
        intro st2 hinv2
        unfold printBanner
        split_ifs
        · exact hinv2
        · exact hinv2
      apply hpreserve
      exact filesInv_persist cfg { st with counter := bumpCounter cfg st } b day hp h1 h2 h3 h4 h5


theorem filesInv_run (cfg : StreamConfig) :
    ∀ (evs : List StreamEvent) (st : StreamState), FilesInv cfg st → (∀ e ∈ evs, evOk e) →
      FilesInv cfg (streamRun cfg evs st) := by
  intro evs
  induction evs with
  | nil => intro st hinv _; exact hinv
  | cons ev rest ih =>
    intro st hinv hev
    unfold streamRun
    split_ifs with hhalt
    · exact hinv
    · exact ih _ (filesInv_step cfg st ev hinv (hev ev (by simp)))
        (fun e he => hev e (by simp [he]))

/-! ### The scan submit command (lines 777-967)

The monitoring session listens on the alert push channel for up to wait
seconds, deduplicates banners by the formatted ip-and-port key, groups them
per host and port, polls the scan status once sixty session-seconds have
passed, and always deletes the temporary alert in the finally block. -/

/-- One banner record as received during a scan monitoring session.  The
ip slot is an integer for ipv4 and a string for ipv6; payload is an opaque
identifier distinguishing the banner body. -/
structure ScanBanner where
  ip : Option FieldVal
  ipv6 : Option FieldVal
  port : Nat
  payload : Nat
  deriving DecidableEq

/-- Line 825: banner.get of ip, defaulting to banner.get of ipv6. -/
def bannerIp (b : ScanBanner) : Option FieldVal :=
  match b.ip with
  | some v => some v
  | none => b.ipv6

/-- Line 826: Python truthiness of the ip value, as tested by the guard.
None, the integer 0 and the empty string are all falsy. -/
def ipTruthy : Option FieldVal → Bool
  | none => false
  | some (.intVal n) => n != 0
  | some (.strVal s) => s != ""

/-- Python str of the optional ip value. -/
def fieldStrOpt : Option FieldVal → String
  | some v => fieldStr v
  | none => ""

/-- Modelled from the spec: helpers.get_ip lives in shodan.helpers, which
is not under src/.  The spec keys the result table by the host identity,
the ip-or-ipv6 value, so the model renders exactly that value. -/
def get_ip (b : ScanBanner) : String :=
  fieldStrOpt (bannerIp b)

/-- Line 830: the dedup cache key, built by string formatting as the ip
value, a colon, and the port. -/
def cacheKey (ipS : String) (port : Nat) : String :=
  ipS ++ ":" ++ natStr port

/-- The per-host table of banners keyed by port (a Python dict). -/
abbrev PortMap := List (Nat × ScanBanner)

/-- The result table keyed by host string (a Python defaultdict of dict). -/
abbrev HostMap := List (String × PortMap)

def portsGet (p : Nat) : PortMap → Option ScanBanner
  | [] => none
  | (q, b) :: r => if q = p then some b else portsGet p r

def portsSet (p : Nat) (b : ScanBanner) : PortMap → PortMap
  | [] => [(p, b)]
  | (q, c) :: r => if q = p then (p, b) :: r else (q, c) :: portsSet p b r

def hostsGet (h : String) (p : Nat) : HostMap → Option ScanBanner
  | [] => none
  | (k, m) :: r => if k = h then portsGet p m else hostsGet h p r

def hostsSet (h : String) (p : Nat) (b : ScanBanner) : HostMap → HostMap
  | [] => [(h, [(p, b)])]
  | (k, m) :: r => if k = h then (k, portsSet p b m) :: r else (k, m) :: hostsSet h p b r

/-- The mutable state of the monitoring session loop (lines 818-875).
Times are elapsed seconds since scan_start; sleeps are recorded in
milliseconds. -/
structure ScanState where
  hosts : HostMap
  cache : List String
  done : Bool
  aborted : Option String
  interrupted : Bool
  polls : List Nat
  sleepsMs : List Nat
  reconnects : Nat
  deriving DecidableEq

/-- Line 818-821: empty table, empty cache, done False. -/
def scanInit : ScanState :=
  { hosts := []
    cache := []
    done := false
    aborted := none
    interrupted := false
    polls := []
    sleepsMs := []
    reconnects := 0 }

/-- What the push channel produces during the session: a banner at a given
elapsed time, or one of the exception classes of lines 846-875; a user
interrupt is not caught and propagates. -/
inductive ScanEvent where
  | banner (b : ScanBanner) (t : Nat)
  | apiError (t : Nat)
  | sockTimeout (t : Nat)
  | otherExc (msg : String)
  | keyInterrupt
  deriving DecidableEq

/-- Lines 824-833: resolve the identity, skip unidentifiable banners, and
record first-seen banners per identity. -/
def recordBanner (st : ScanState) (b : ScanBanner) : ScanState :=
  if ipTruthy (bannerIp b) then
    if cacheKey (fieldStrOpt (bannerIp b)) b.port ∈ st.cache then st
    else
      { st with
          hosts := hostsSet (get_ip b) b.port b st.hosts
          cache := cacheKey (fieldStrOpt (bannerIp b)) b.port :: st.cache }
  else st

/-- Lines 835-844: once sixty session-seconds have passed, each further
banner triggers a scan status poll; a DONE status stops the session. -/
def pollCheck (pollDone : Nat → Bool) (st : ScanState) (t : Nat) : ScanState :=
  if 60 ≤ t then
    if pollDone t then { st with polls := st.polls ++ [t], done := true }
    else { st with polls := st.polls ++ [t] }
  else st

/-- One iteration of the monitoring loop, lines 822-875.  A banner runs the
body of the for-loop; each exception class runs its handler: a protocol
error before the wait window sleeps half a second and reconnects, after it
polls the scan status; a socket timeout before the wait window reconnects
immediately, after it ends the session; any other exception aborts. -/
def scanStep (wait : Int) (pollDone : Nat → Bool) (st : ScanState) : ScanEvent → ScanState
  | .banner b t =>
    if ipTruthy (bannerIp b) then pollCheck pollDone (recordBanner st b) t
    else st
  | .apiError t =>
    if (t : Int) < wait then
      { st with sleepsMs := st.sleepsMs ++ [500], reconnects := st.reconnects + 1 }
    else
      if pollDone t then { st with polls := st.polls ++ [t], done := true }
      else { st with polls := st.polls ++ [t] }
  | .sockTimeout t =>
    if (t : Int) < wait then { st with reconnects := st.reconnects + 1 }
    else { st with done := true }
  | .otherExc msg => { st with aborted := some msg }
  | .keyInterrupt => { st with interrupted := true }

/-- The while-loop of line 822 has ended: done was set, a ClickException
was raised, or a user interrupt is propagating. -/
def scanHalted (st : ScanState) : Bool :=
  st.done || st.aborted.isSome || st.interrupted

/-- Run of the monitoring loop over the events the channel produces. -/
def scanRun (wait : Int) (pollDone : Nat → Bool) : List ScanEvent → ScanState → ScanState
  | [], st => st
  | ev :: evs, st =>
    if scanHalted st then st else scanRun wait pollDone evs (scanStep wait pollDone st ev)

/-- The alert-management calls the command issued, and the final state of
the monitoring loop when one ran. -/
structure ScanTrace where
  createAlertCalls : Nat
  deleteAlertCalls : Nat
  finalState : Option ScanState

/-- Control flow of the scan submit command around the monitoring loop
(lines 777-967): if api.scan raises, the command aborts before any alert is
created; if wait is not positive it returns without subscribing; otherwise
an alert is created, the monitoring loop runs to whichever end the events
dictate, and the finally block of lines 964-967 deletes the alert exactly
when one was created. -/
def scan_submit_model (submitOk : Bool) (wait : Int) (pollDone : Nat → Bool)
    (evs : List ScanEvent) : ScanTrace :=
  if submitOk = false then { createAlertCalls := 0, deleteAlertCalls := 0, finalState := none }
  else if wait ≤ 0 then { createAlertCalls := 0, deleteAlertCalls := 0, finalState := none }
  else
    { createAlertCalls := 1
      deleteAlertCalls := 1
      finalState := some (scanRun wait pollDone evs scanInit) }

/-! ### Helper lemmas about the monitoring session -/

theorem scanRun_halted (wait : Int) (pollDone : Nat → Bool) (evs : List ScanEvent)
    (st : ScanState) (h : scanHalted st = true) : scanRun wait pollDone evs st = st := by
  cases evs with
  | nil => rfl
  | cons ev evs => simp [scanRun, h]

theorem scanRun_cons (wait : Int) (pollDone : Nat → Bool) (ev : ScanEvent)
    (evs : List ScanEvent) (st : ScanState) (h : scanHalted st = false) :
    scanRun wait pollDone (ev :: evs) st
      = scanRun wait pollDone evs (scanStep wait pollDone st ev) := by
  simp [scanRun, h]

theorem scanHalted_false (st : ScanState) (hd : st.done = false) (ha : st.aborted = none)
    (hi : st.interrupted = false) : scanHalted st = false := by
  simp [scanHalted, hd, ha, hi]

/-! ### Identity cells and key injectivity

The dedup cache stores formatted strings while the result table is keyed
by host string and port, so relating the two requires that the format is
injective on identities: the port rendering contains no colon, hence the
split at the last colon is unambiguous. -/

/-- The identity cell of a banner: the rendered host identity together with
the port, defined exactly when the ip value is truthy. -/
def bCell (b : ScanBanner) : Option (String × Nat) :=
  if ipTruthy (bannerIp b) then some (get_ip b, b.port) else none

/-- The cache key determined by an identity cell. -/
def cellKey (c : String × Nat) : String :=
  c.1 ++ ":" ++ natStr c.2

theorem cacheKey_eq_cellKey (ipS : String) (port : Nat) :
    cacheKey ipS port = cellKey (ipS, port) := rfl

theorem append_colon_data (s t : String) :
    (s ++ ":" ++ t).data = s.data ++ ':' :: t.data := by
  rw [String.data_append, String.data_append]
  simp

theorem cellKey_inj (c1 c2 : String × Nat) (h : cellKey c1 = cellKey c2) : c1 = c2 := by
  obtain ⟨s1, p1⟩ := c1
  obtain ⟨s2, p2⟩ := c2
  have hdata : (cellKey (s1, p1)).data = (cellKey (s2, p2)).data := by rw [h]
  unfold cellKey at hdata
  rw [append_colon_data, append_colon_data] at hdata
  have hsplit := colon_split s1.data (natStr p1).data s2.data (natStr p2).data
    (fun hmem => (natStr_ne_colon p1 ':' hmem) rfl)
    (fun hmem => (natStr_ne_colon p2 ':' hmem) rfl) hdata
  simp only [Prod.mk.injEq]
  exact ⟨String.ext hsplit.1, natStr_inj p1 p2 (String.ext hsplit.2)⟩

/-! ### Result table lemmas -/

theorem portsGet_set_same (p : Nat) (b : ScanBanner) (m : PortMap) :
    portsGet p (portsSet p b m) = some b := by
  induction m with
  | nil => simp [portsSet, portsGet]
  | cons qc r ih =>
    obtain ⟨q, c⟩ := qc
    by_cases hq : q = p
    · simp [portsSet, hq, portsGet]
    · simp [portsSet, hq, portsGet, ih]

theorem portsGet_set_other (p p2 : Nat) (b : ScanBanner) (m : PortMap) (h : p2 ≠ p) :
    portsGet p2 (portsSet p b m) = portsGet p2 m := by
  have hps : p ≠ p2 := Ne.symm h
  induction m with
  | nil => simp [portsSet, portsGet, hps]
  | cons qc r ih =>
    obtain ⟨q, c⟩ := qc
    by_cases hq : q = p
    · subst hq
      simp [portsSet, portsGet, hps]
    · simp [portsSet, hq, portsGet, ih]

theorem hostsGet_set_same (h : String) (p : Nat) (b : ScanBanner) (hs : HostMap) :
    hostsGet h p (hostsSet h p b hs) = some b := by
  induction hs with
  | nil => simp [hostsSet, hostsGet, portsGet]
  | cons km r ih =>
    obtain ⟨k, m⟩ := km
    by_cases hk : k = h
    · simp [hostsSet, hk, hostsGet, portsGet_set_same]
    · simp [hostsSet, hk, hostsGet, ih]

theorem hostsGet_set_other (h h2 : String) (p p2 : Nat) (b : ScanBanner) (hs : HostMap)
    (hne : ¬ (h2 = h ∧ p2 = p)) :
    hostsGet h2 p2 (hostsSet h p b hs) = hostsGet h2 p2 hs := by
  induction hs with
  | nil =>
    by_cases hh : h = h2
    · subst hh
      have hp : p2 ≠ p := fun hpp => hne ⟨rfl, hpp⟩
      have hps : p ≠ p2 := Ne.symm hp
      simp [hostsSet, hostsGet, portsGet, hps]
    · simp [hostsSet, hostsGet, hh]
  | cons km r ih =>
    obtain ⟨k, m⟩ := km
    by_cases hk : k = h
    · subst hk
      by_cases hh : k = h2
      · subst hh
        have hp : p2 ≠ p := fun hpp => hne ⟨rfl, hpp⟩
        simp [hostsSet, hostsGet, portsGet_set_other p p2 b m hp]
      · simp [hostsSet, hostsGet, hh]
    · by_cases hh : k = h2
      · subst hh
        simp [hostsSet, hk, hostsGet]
      · simp [hostsSet, hk, hostsGet, hh, ih]

/-! ### The first-seen invariant of the dedup cache and result table -/

/-- The dedup cache holds exactly the keys of the identities seen so far. -/
def CacheInv (pre : List ScanBanner) (st : ScanState) : Prop :=
  ∀ k, k ∈ st.cache ↔ ∃ b2 ∈ pre, ∃ c, bCell b2 = some c ∧ cellKey c = k

/-- The result table maps every identity cell to the first banner seen with
that identity, and holds nothing else. -/
def HostsInv (pre : List ScanBanner) (st : ScanState) : Prop :=
  ∀ c : String × Nat,
    hostsGet c.1 c.2 st.hosts = pre.find? (fun b2 => decide (bCell b2 = some c))

theorem recordBanner_fields (st : ScanState) (b : ScanBanner) :
    (recordBanner st b).done = st.done ∧ (recordBanner st b).aborted = st.aborted ∧
    (recordBanner st b).interrupted = st.interrupted := by
  unfold recordBanner
  split_ifs <;> simp

theorem pollCheck_fields (pollDone : Nat → Bool) (st : ScanState) (t : Nat) :
    (pollCheck pollDone st t).hosts = st.hosts ∧ (pollCheck pollDone st t).cache = st.cache ∧
    (pollCheck pollDone st t).aborted = st.aborted ∧
    (pollCheck pollDone st t).interrupted = st.interrupted := by
  unfold pollCheck
  split_ifs <;> simp

theorem pollCheck_done_false (pollDone : Nat → Bool) (st : ScanState) (t : Nat)
    (hp : pollDone t = false) : (pollCheck pollDone st t).done = st.done := by
  unfold pollCheck
  split_ifs with h1 h2
  · rw [hp] at h2
    exact absurd h2 (by simp)
  · simp
  · simp

theorem recordBanner_inv (st : ScanState) (b : ScanBanner) (pre : List ScanBanner)
    (hc : CacheInv pre st) (hh : HostsInv pre st) :
    CacheInv (pre ++ [b]) (recordBanner st b) ∧ HostsInv (pre ++ [b]) (recordBanner st b) := by
  by_cases htr : ipTruthy (bannerIp b) = true
  case neg =>
    have hrb : recordBanner st b = st := by
      unfold recordBanner
      rw [if_neg htr]
    have hcell : bCell b = none := by
      unfold bCell
      rw [if_neg htr]
    rw [hrb]
    constructor
    · intro k
      constructor
      · intro hk
        obtain ⟨b2, hb2, c, hbc, hck⟩ := (hc k).mp hk
        exact ⟨b2, by simp [hb2], c, hbc, hck⟩
      · rintro ⟨b2, hb2, c, hbc, hck⟩
        rcases List.mem_append.mp hb2 with hb2m | hb2m
        · exact (hc k).mpr ⟨b2, hb2m, c, hbc, hck⟩
        · rw [List.mem_singleton.mp hb2m, hcell] at hbc
          exact absurd hbc (by simp)
    · intro c
      rw [List.find?_append, hh c]
      rw [List.find?_cons_of_neg _ (by simp [hcell]), List.find?_nil, Option.or_none]
  case pos =>
  have hcell : bCell b = some (get_ip b, b.port) := by
    unfold bCell
    rw [if_pos htr]
  have hkey : cacheKey (fieldStrOpt (bannerIp b)) b.port = cellKey (get_ip b, b.port) := rfl
  by_cases hmem : cacheKey (fieldStrOpt (bannerIp b)) b.port ∈ st.cache
  · -- duplicate identity: nothing changes, and the first-seen entry stays
    have hrb : recordBanner st b = st := by
      unfold recordBanner
      rw [if_pos htr, if_pos hmem]
    rw [hrb]
    rw [hkey] at hmem
    constructor
    · intro k
      constructor
      · intro hk
        obtain ⟨b2, hb2, c, hbc, hck⟩ := (hc k).mp hk
        exact ⟨b2, by simp [hb2], c, hbc, hck⟩
      · rintro ⟨b2, hb2, c, hbc, hck⟩
        rcases List.mem_append.mp hb2 with hb2m | hb2m
        · exact (hc k).mpr ⟨b2, hb2m, c, hbc, hck⟩
        · rw [List.mem_singleton.mp hb2m, hcell] at hbc
          have hcc : (get_ip b, b.port) = c := Option.some.inj hbc
          rw [← hck, ← hcc]
          exact hmem
    · intro c
      rw [List.find?_append, hh c]
      by_cases hcc : (get_ip b, b.port) = c
      · -- the identity was seen before, so the left lookup already succeeds
        obtain ⟨b2, hb2, c2, hbc2, hck2⟩ := (hc _).mp hmem
        have hc2 : c2 = (get_ip b, b.port) := cellKey_inj c2 (get_ip b, b.port) hck2
        have hqb2 : (fun b3 => decide (bCell b3 = some c)) b2 = true := by
          simp [hbc2, hc2, hcc]
        cases hfind : pre.find? (fun b3 => decide (bCell b3 = some c)) with
        | none =>
          exfalso
          exact absurd hqb2 (by simpa using List.find?_eq_none.mp hfind b2 hb2)
        | some b3 => rfl
      · rw [List.find?_cons_of_neg _ (by simp [hcell, hcc]), List.find?_nil, Option.or_none]
  · -- fresh identity: it is cached and enters the table as first seen
    have hrb : recordBanner st b
        = { st with
            hosts := hostsSet (get_ip b) b.port b st.hosts
            cache := cacheKey (fieldStrOpt (bannerIp b)) b.port :: st.cache } := by
      unfold recordBanner
      rw [if_pos htr, if_neg hmem]
    rw [hrb]
    rw [hkey] at hmem
    constructor
    · intro k
      constructor
      · intro hk
        rcases List.mem_cons.mp hk with hk | hk
        · exact ⟨b, by simp, (get_ip b, b.port), hcell, by rw [hk]; exact hkey.symm⟩
        · obtain ⟨b2, hb2, c, hbc, hck⟩ := (hc k).mp hk
          exact ⟨b2, by simp [hb2], c, hbc, hck⟩
      · rintro ⟨b2, hb2, c, hbc, hck⟩
        rcases List.mem_append.mp hb2 with hb2m | hb2m
        · exact List.mem_cons.mpr (Or.inr ((hc k).mpr ⟨b2, hb2m, c, hbc, hck⟩))
        · rw [List.mem_singleton.mp hb2m, hcell] at hbc
          have hcc : (get_ip b, b.port) = c := Option.some.inj hbc
          apply List.mem_cons.mpr
          left
          rw [← hck, ← hcc, hkey]
    · intro c
      show hostsGet c.1 c.2 (hostsSet (get_ip b) b.port b st.hosts)
          = (pre ++ [b]).find? (fun b2 => decide (bCell b2 = some c))
      rw [List.find?_append]
      by_cases hcc : (get_ip b, b.port) = c
      · have hleft : pre.find? (fun b3 => decide (bCell b3 = some c)) = none := by
          apply List.find?_eq_none.mpr
          intro x hx hqx
          have hbx : bCell x = some c := by simpa using hqx
          have : cellKey c ∈ st.cache := (hc (cellKey c)).mpr ⟨x, hx, c, hbx, rfl⟩
          rw [← hcc] at this
          exact hmem this
        have hq : (fun b2 => decide (bCell b2 = some c)) b = true := by
          simp [hcell, hcc]
        have hfind : List.find? (fun b2 => decide (bCell b2 = some c)) [b] = some b :=
          List.find?_cons_of_pos [] hq
        rw [hleft, hfind]
        show hostsGet c.1 c.2 (hostsSet (get_ip b) b.port b st.hosts) = some b
        obtain ⟨ch, cp⟩ := c
        have hch : get_ip b = ch := congrArg Prod.fst hcc
        have hcp : b.port = cp := congrArg Prod.snd hcc
        rw [← hch, ← hcp]
        exact hostsGet_set_same (get_ip b) b.port b st.hosts
      · have hne : ¬ (c.1 = get_ip b ∧ c.2 = b.port) := by
          rintro ⟨hh1, hh2⟩
          exact hcc (by
            obtain ⟨ch, cp⟩ := c
            simp only [Prod.mk.injEq]
            exact ⟨hh1.symm, hh2.symm⟩)
        rw [hostsGet_set_other (get_ip b) c.1 b.port c.2 b st.hosts hne, hh c]
        rw [List.find?_cons_of_neg _ (by simp [hcell, hcc]), List.find?_nil, Option.or_none]

theorem scanStep_banner_inv (wait : Int) (st : ScanState) (b : ScanBanner) (t : Nat)
    (pre : List ScanBanner)
    (hd : st.done = false) (ha : st.aborted = none) (hi : st.interrupted = false)
    (hc : CacheInv pre st) (hh : HostsInv pre st) :
    CacheInv (pre ++ [b]) (scanStep wait (fun _ => false) st (.banner b t)) ∧
    HostsInv (pre ++ [b]) (scanStep wait (fun _ => false) st (.banner b t)) ∧
    (scanStep wait (fun _ => false) st (.banner b t)).done = false ∧
    (scanStep wait (fun _ => false) st (.banner b t)).aborted = none ∧
    (scanStep wait (fun _ => false) st (.banner b t)).interrupted = false := by
  have hrec := recordBanner_inv st b pre hc hh
  have hrf := recordBanner_fields st b
  by_cases htr : ipTruthy (bannerIp b) = true
  · have hstep : scanStep wait (fun _ => false) st (.banner b t)
        = pollCheck (fun _ => false) (recordBanner st b) t := by
      simp only [scanStep, if_pos htr]
    rw [hstep]
    have hpf := pollCheck_fields (fun _ => false) (recordBanner st b) t
    have hpd := pollCheck_done_false (fun _ => false) (recordBanner st b) t rfl
    refine ⟨?_, ?_, ?_, ?_, ?_⟩
    · intro k
      rw [hpf.2.1]
      exact hrec.1 k
    · intro c
      rw [hpf.1]
      exact hrec.2 c
    · rw [hpd, hrf.1]; exact hd
    · rw [hpf.2.2.1, hrf.2.1]; exact ha
    · rw [hpf.2.2.2, hrf.2.2]; exact hi
  · have hstep : scanStep wait (fun _ => false) st (.banner b t) = st := by
      simp only [scanStep]
      rw [if_neg htr]
    have hrb : recordBanner st b = st := by
      unfold recordBanner
      rw [if_neg htr]
    rw [hstep]
    rw [hrb] at hrec
    exact ⟨hrec.1, hrec.2, hd, ha, hi⟩

theorem scanRun_banners_inv (wait : Int) :
    ∀ (bts : List (ScanBanner × Nat)) (pre : List ScanBanner) (st : ScanState),
      st.done = false → st.aborted = none → st.interrupted = false →
      CacheInv pre st → HostsInv pre st →
      HostsInv (pre ++ bts.map Prod.fst)
        (scanRun wait (fun _ => false) (bts.map (fun q => ScanEvent.banner q.1 q.2)) st) := by
  intro bts
  induction bts with
  | nil =>
    intro pre st _ _ _ _ hh
    simpa [scanRun] using hh
  | cons q rest ih =>
    intro pre st hd ha hi hc hh
    simp only [List.map_cons]
    rw [scanRun_cons _ _ _ _ _ (scanHalted_false st hd ha hi)]
    have hstep := scanStep_banner_inv wait st q.1 q.2 pre hd ha hi hc hh
    have hres := ih (pre ++ [q.1]) _ hstep.2.2.1 hstep.2.2.2.1 hstep.2.2.2.2 hstep.1 hstep.2.1
    intro c
    have := hres c
    simpa [List.append_assoc] using this

/-! ### The compression-level invariant, with no side conditions -/

/-- Every file opened by a rotation carries the default level 9, and the
startup file keeps the user-supplied level; holds for arbitrary events. -/
def LevelsInv (cfg : StreamConfig) (st : StreamState) : Prop :=
  (cfg.datadir = true → st.files ≠ []) ∧
  (∀ f ∈ st.files.dropLast, f.level = 9) ∧
  (∀ f ∈ st.files.getLast?, f.level = cfg.compresslevel)

theorem write_banner_level (f : StreamFile) (b : SBanner) (day : Nat) :
    (write_banner f b day).level = f.level := by
  unfold write_banner
  split_ifs <;> rfl

theorem levelsInv_init (cfg : StreamConfig) : LevelsInv cfg (streamInit cfg) := by
  unfold LevelsInv streamInit open_streaming_file
  split_ifs with h <;> simp [h]

theorem levelsInv_persist (cfg : StreamConfig) (st2 : StreamState) (b : SBanner) (day : Nat)
    (hL : LevelsInv cfg st2) : LevelsInv cfg (persistBanner cfg st2 b day) := by
  obtain ⟨h1, h2, h3⟩ := hL
  by_cases hdat : cfg.datadir = true
  case neg =>
    have hpb : persistBanner cfg st2 b day = st2 := by
      unfold persistBanner
      rw [if_neg hdat]
    rw [hpb]
    exact ⟨h1, h2, h3⟩
  case pos =>
  have hpb : persistBanner cfg st2 b day
      = { rotateIfNeeded day st2 with
          files := writeHead (rotateIfNeeded day st2).files b day } := by
    unfold persistBanner
    rw [if_pos hdat]
  rw [hpb]
  cases hfs : st2.files with
  | nil => exact absurd hfs (h1 hdat)
  | cons f rest =>
    by_cases hrot : day ≠ st2.lastTime
    · have hr : rotateIfNeeded day st2
          = { st2 with
              lastTime := day
              files := open_streaming_file_default day :: st2.files } := by
        unfold rotateIfNeeded
        rw [if_pos hrot]
      rw [hr]
      simp only [hfs, writeHead]
      refine ⟨fun _ => by simp, ?_, ?_⟩
      · intro g hg
        rw [List.dropLast_cons_of_ne_nil (by simp)] at hg
        rcases List.mem_cons.mp hg with hcase | hcase
        · subst hcase
          rw [write_banner_level]
          rfl
        · exact h2 g (by rw [hfs]; exact hcase)
      · intro g hg
        rw [List.getLast?_cons_cons] at hg
        exact h3 g (by rw [hfs]; exact hg)
    · have hr : rotateIfNeeded day st2 = st2 := by
        unfold rotateIfNeeded
        rw [if_neg hrot]
      rw [hr]
      simp only [hfs, writeHead]
      refine ⟨fun _ => by simp, ?_, ?_⟩
      · intro g hg
        cases rest with
        | nil => simp at hg
        | cons f2 rest2 =>
          rw [List.dropLast_cons₂] at hg
          rcases List.mem_cons.mp hg with hcase | hcase
          · have hfmem : f ∈ st2.files.dropLast := by
              rw [hfs, List.dropLast_cons₂]
              simp
            subst hcase
            rw [write_banner_level]
            exact h2 f hfmem
          · exact h2 g (by rw [hfs, List.dropLast_cons₂]; simp [hcase])
      · intro g hg
        cases rest with
        | nil =>
          simp only [List.getLast?_singleton, Option.mem_def, Option.some.injEq] at hg
          have hfl : f.level = cfg.compresslevel := by
            apply h3
            rw [hfs]
            simp
          subst hg
          rw [write_banner_level]
          exact hfl
        | cons f2 rest2 =>
          rw [List.getLast?_cons_cons] at hg
          apply h3
          rw [hfs, List.getLast?_cons_cons]
          exact hg

theorem levelsInv_step (cfg : StreamConfig) (st : StreamState) (ev : StreamEvent)
    (hL : LevelsInv cfg st) : LevelsInv cfg (streamStep cfg st ev) := by
  obtain ⟨h1, h2, h3⟩ := hL
  cases ev with
  | timeoutExc => exact ⟨h1, h2, h3⟩
  | keyInterrupt => exact ⟨h1, h2, h3⟩
  | apiError msg => exact ⟨h1, h2, h3⟩
  | otherError => exact ⟨h1, h2, h3⟩
  | banner b day =>
    by_cases hquit : 0 < cfg.limit ∧ cfg.limit < bumpCounter cfg st
    · simp only [streamStep, if_pos hquit]
      exact ⟨h1, h2, h3⟩
    · simp only [streamStep, if_neg hquit]
      have hpr : ∀ st2 : StreamState, LevelsInv cfg st2 → LevelsInv cfg (printBanner cfg st2 b) := by
        intro st2 hinv2
        unfold printBanner
        split_ifs
        · exact hinv2
        · exact hinv2
      apply hpr
      exact levelsInv_persist cfg { st with counter := bumpCounter cfg st } b day ⟨h1, h2, h3⟩

theorem levelsInv_run (cfg : StreamConfig) :
    ∀ (evs : List StreamEvent) (st : StreamState), LevelsInv cfg st →
      LevelsInv cfg (streamRun cfg evs st) := by
  intro evs
  induction evs with
  | nil => intro st hinv; exact hinv
  | cons ev rest ih =>
    intro st hinv
    unfold streamRun
    split_ifs with hhalt
    · exact hinv
    · exact ih _ (levelsInv_step cfg st ev hinv)

/-! ### Claims about the stream command -/

/-- Configuration for the limit counterexample: limit 2, data directory
configured, quiet, compresslevel 9, startup wall-clock day 0. -/
def cfgC1 : StreamConfig := ⟨2, true, true, 9, 0⟩

/-- Three distinct non-placeholder records, all processed on day 0. -/
def evsC1 : List StreamEvent :=
  [StreamEvent.banner ⟨1, 0, false⟩ 0, StreamEvent.banner ⟨2, 0, false⟩ 0,
   StreamEvent.banner ⟨3, 0, false⟩ 0]

/-- Claim C1, as stated, is false on the code: it says the limit check
happens strictly after a record is accepted for writing, so that the record
processed when the limit is exceeded is still written.  In the code (lines
1243-1258) the check precedes the write: with limit 2 and three incoming
records, the third record is consumed from the stream (the counter reaches
3) and the loop quits because of the limit, yet only the first two records
are ever written. -/
theorem C1_counterexample :
    (streamRun cfgC1 evsC1 (streamInit cfgC1)).counter = 3 ∧
    (streamRun cfgC1 evsC1 (streamInit cfgC1)).quit = true ∧
    allWrites (streamRun cfgC1 evsC1 (streamInit cfgC1))
      = [(⟨1, 0, false⟩, 0), (⟨2, 0, false⟩, 0)] := by
  decide

/-- Claim C1 amended: the limit check happens strictly before the write;
the record that pushes the counter past the limit is consumed from the
stream but not written, and all earlier records were durably written.  With
a positive limit and more records than the limit, exactly the first limit
records are written, the consumer stops, and the counter equals limit plus
one, showing one further record was consumed by the check. -/
theorem C1_amended (cfg : StreamConfig) (bs : List (SBanner × Nat))
    (hd : cfg.datadir = true) (hp : ∀ p ∈ bs, (p : SBanner × Nat).1.placeholder = false)
    (hl : 0 < cfg.limit) (hlen : cfg.limit < (bs.length : Int)) :
    allWrites (streamRun cfg (bs.map (fun p => StreamEvent.banner p.1 p.2)) (streamInit cfg))
        = bs.take cfg.limit.toNat ∧
    (streamRun cfg (bs.map (fun p => StreamEvent.banner p.1 p.2)) (streamInit cfg)).quit
        = true ∧
    (streamRun cfg (bs.map (fun p => StreamEvent.banner p.1 p.2)) (streamInit cfg)).counter
        = cfg.limit + 1 := by
  have hfiles : (streamInit cfg).files ≠ [] := by
    simp [streamInit, hd]
  have hinit : allWrites (streamInit cfg) = [] := by
    simp [allWrites, streamInit, hd, filesWrites, open_streaming_file]
  have hcnt : (streamInit cfg).counter = 0 := rfl
  have hover := stream_limit_overflow cfg bs (streamInit cfg) hd rfl rfl hfiles hp hl
    (by rw [hcnt]; omega) (by rw [hcnt]; simpa using hlen)
  refine ⟨?_, hover.2.1, hover.2.2⟩
  rw [hover.1, hinit, hcnt]
  simp

def cfgC1w : StreamConfig := ⟨1, true, true, 9, 5⟩

def bsC1w : List (SBanner × Nat) := [(⟨7, 0, false⟩, 5), (⟨8, 0, false⟩, 5)]

theorem C1_witness :
    cfgC1w.datadir = true ∧
    (∀ p ∈ bsC1w, (p : SBanner × Nat).1.placeholder = false) ∧
    0 < cfgC1w.limit ∧ cfgC1w.limit < (bsC1w.length : Int) ∧
    (allWrites (streamRun cfgC1w (bsC1w.map (fun p => StreamEvent.banner p.1 p.2))
          (streamInit cfgC1w))
        = bsC1w.take cfgC1w.limit.toNat ∧
      (streamRun cfgC1w (bsC1w.map (fun p => StreamEvent.banner p.1 p.2))
          (streamInit cfgC1w)).quit = true ∧
      (streamRun cfgC1w (bsC1w.map (fun p => StreamEvent.banner p.1 p.2))
          (streamInit cfgC1w)).counter = cfgC1w.limit + 1) :=
  ⟨rfl, by decide, by decide, by decide,
   C1_amended cfgC1w bsC1w rfl (by decide) (by decide) (by decide)⟩

def cfgC3 : StreamConfig := ⟨-1, true, true, 9, 1⟩

/-- Five records whose own timestamp field (the second component of each
banner) spans the days 1, 1, 2, 2, 3; all five are processed while the
wall clock reads day 1. -/
def evsC3 : List StreamEvent :=
  [StreamEvent.banner ⟨1, 1, false⟩ 1, StreamEvent.banner ⟨2, 1, false⟩ 1,
   StreamEvent.banner ⟨3, 2, false⟩ 1, StreamEvent.banner ⟨4, 2, false⟩ 1,
   StreamEvent.banner ⟨5, 3, false⟩ 1]

/-- Claim C3, as stated, is false on the code: rotation is not computed
from each record timestamp.  The loop calls timestr (line 1253), which
reads the wall clock, and never reads the timestamp field of the record.
Five records whose own timestamps span three calendar days, all processed
on one wall-clock day, leave exactly one open sink handle, not three. -/
theorem C3_counterexample :
    (streamRun cfgC3 evsC3 (streamInit cfgC3)).files.length = 1 ∧
    (streamRun cfgC3 evsC3 (streamInit cfgC3)).files.map StreamFile.day = [1] := by
  decide

/-- Claim C3 amended: rotation is computed from the wall-clock UTC day at
the moment each record is processed (not from the record timestamp field
and not from the wall clock at process start).  When the processing days of
five records follow the pattern d1 d1 d2 d2 d3 with the startup day d1,
exactly three sink handles are opened, and each holds exactly the records
processed while its day was current. -/
theorem C3_amended (d1 d2 d3 lvl : Nat) (b1 b2 b3 b4 b5 : SBanner)
    (h12 : d1 ≠ d2) (h23 : d2 ≠ d3) (hp1 : b1.placeholder = false)
    (hp2 : b2.placeholder = false) (hp3 : b3.placeholder = false)
    (hp4 : b4.placeholder = false) (hp5 : b5.placeholder = false) :
    streamRun ⟨-1, true, true, lvl, d1⟩
      [StreamEvent.banner b1 d1, StreamEvent.banner b2 d1, StreamEvent.banner b3 d2,
       StreamEvent.banner b4 d2, StreamEvent.banner b5 d3]
      (streamInit ⟨-1, true, true, lvl, d1⟩)
      = { counter := 0, quit := false, lastTime := d3
          files := [⟨d3, 9, [(b5, d3)]⟩, ⟨d2, 9, [(b3, d2), (b4, d2)]⟩,
            ⟨d1, lvl, [(b1, d1), (b2, d1)]⟩]
          printed := [], sleeps := [], reconnects := 0, aborted := none } := by
  have hr2 : d2 ≠ d1 := Ne.symm h12
  have hr3 : d3 ≠ d2 := Ne.symm h23
  have hlim : ¬ ((0 : Int) < -1) := by decide
  simp [streamRun, streamHalted, streamStep, bumpCounter, persistBanner, rotateIfNeeded,
    printBanner, writeHead, write_banner, streamInit, open_streaming_file,
    open_streaming_file_default, hlim, hp1, hp2, hp3, hp4, hp5, hr2, hr3]

theorem C3_witness :
    (1 : Nat) ≠ 2 ∧ (2 : Nat) ≠ 3 ∧
    streamRun ⟨-1, true, true, 4, 1⟩
        [StreamEvent.banner ⟨1, 0, false⟩ 1, StreamEvent.banner ⟨2, 0, false⟩ 1,
         StreamEvent.banner ⟨3, 0, false⟩ 2, StreamEvent.banner ⟨4, 0, false⟩ 2,
         StreamEvent.banner ⟨5, 0, false⟩ 3]
        (streamInit ⟨-1, true, true, 4, 1⟩)
      = { counter := 0, quit := false, lastTime := 3
          files := [⟨3, 9, [(⟨5, 0, false⟩, 3)]⟩,
            ⟨2, 9, [(⟨3, 0, false⟩, 2), (⟨4, 0, false⟩, 2)]⟩,
            ⟨1, 4, [(⟨1, 0, false⟩, 1), (⟨2, 0, false⟩, 1)]⟩]
          printed := [], sleeps := [], reconnects := 0, aborted := none } :=
  ⟨by decide, by decide,
   C3_amended 1 2 3 4 ⟨1, 0, false⟩ ⟨2, 0, false⟩ ⟨3, 0, false⟩ ⟨4, 0, false⟩ ⟨5, 0, false⟩
     (by decide) (by decide) rfl rfl rfl rfl rfl⟩

def cfgC4 : StreamConfig := ⟨-1, true, true, 9, 0⟩

/-- Claim C4, as stated, is false for the startup day: when a data
directory is configured the stream command opens the file for the
process-start day eagerly (lines 1237-1238), before any record has
arrived, so a day on which zero records are processed does get an output
file if it is the startup day.  The file persists, still empty, even after
an error-and-reconnect cycle with no records. -/
theorem C4_counterexample :
    (streamRun cfgC4 [] (streamInit cfgC4)).files = [⟨0, 9, []⟩] ∧
    (streamRun cfgC4 [StreamEvent.otherError] (streamInit cfgC4)).files = [⟨0, 9, []⟩] := by
  decide

/-- Claim C4 amended: except for the startup file, which is created eagerly
when the command starts, every output file is created lazily by a rotation:
each non-startup file holds at least one record, and every record it holds
was processed while its day was the current wall-clock day, so an idle
period spanning midnight creates no file until the first record of the new
day arrives.  (Files are kept most recent first, so the startup file is the
last and the non-startup files are the dropLast.) -/
theorem C4_lazy_rotation (cfg : StreamConfig) (evs : List StreamEvent)
    (hev : ∀ e ∈ evs, evOk e) (f : StreamFile)
    (hf : f ∈ (streamRun cfg evs (streamInit cfg)).files.dropLast) :
    f.writes ≠ [] ∧ ∀ w ∈ f.writes, w.2 = f.day := by
  have hinv := filesInv_run cfg evs (streamInit cfg) (filesInv_init cfg) hev
  refine ⟨(hinv.2.2.1 f hf).2, ?_⟩
  exact hinv.2.2.2.1 f (List.dropLast_subset _ hf)

def cfgC4w : StreamConfig := ⟨-1, true, true, 9, 1⟩

def evsC4w : List StreamEvent :=
  [StreamEvent.banner ⟨1, 0, false⟩ 1, StreamEvent.banner ⟨2, 0, false⟩ 2]

theorem C4_witness :
    (∀ e ∈ evsC4w, evOk e) ∧
    (⟨2, 9, [(⟨2, 0, false⟩, 2)]⟩ : StreamFile)
        ∈ (streamRun cfgC4w evsC4w (streamInit cfgC4w)).files.dropLast ∧
    ((⟨2, 9, [(⟨2, 0, false⟩, 2)]⟩ : StreamFile).writes ≠ [] ∧
      ∀ w ∈ (⟨2, 9, [(⟨2, 0, false⟩, 2)]⟩ : StreamFile).writes,
        w.2 = (⟨2, 9, [(⟨2, 0, false⟩, 2)]⟩ : StreamFile).day) :=
  ⟨by intro e he; fin_cases he <;> trivial, by decide,
   C4_lazy_rotation cfgC4w evsC4w (by intro e he; fin_cases he <;> trivial) _ (by decide)⟩

def cfgC5 : StreamConfig := ⟨-1, false, true, 9, 0⟩

/-- Claim C5, as stated, is false on the code: a transport-level timeout
does not trigger backoff and reconnection.  The handler at lines 1288-1289
raises a ClickException immediately: no sleep is recorded, no channel is
reopened, and the error surfaces to the caller. -/
theorem C5_counterexample :
    (streamRun cfgC5 [StreamEvent.timeoutExc] (streamInit cfgC5)).aborted
        = some ("Connection timed out") ∧
    (streamRun cfgC5 [StreamEvent.timeoutExc] (streamInit cfgC5)).sleeps = [] ∧
    (streamRun cfgC5 [StreamEvent.timeoutExc] (streamInit cfgC5)).reconnects = 0 := by
  decide

/-- Claim C5 amended: a transport-level timeout aborts the command
immediately with the message Connection timed out (lines 1288-1289); an
explicit protocol error from the service aborts immediately with its own
message and is never retried (lines 1292-1293); any other non-fatal channel
error triggers a one-second backoff and a channel reopen, after which
consumption continues with the remaining events (lines 1294-1299). -/
theorem C5_amended (cfg : StreamConfig) (st : StreamState) (msg : String)
    (evs : List StreamEvent) (hq : st.quit = false) (ha : st.aborted = none) :
    streamRun cfg (StreamEvent.timeoutExc :: evs) st
        = { st with aborted := some ("Connection timed out") } ∧
    streamRun cfg (StreamEvent.apiError msg :: evs) st = { st with aborted := some msg } ∧
    streamRun cfg (StreamEvent.otherError :: evs) st
        = streamRun cfg evs
            { st with sleeps := st.sleeps ++ [1], reconnects := st.reconnects + 1 } := by
  have hh := streamHalted_false st hq ha
  refine ⟨?_, ?_, ?_⟩
  · rw [streamRun_cons cfg _ _ st hh]
    exact streamRun_halted cfg evs _ (by simp [streamHalted, streamStep])
  · rw [streamRun_cons cfg _ _ st hh]
    exact streamRun_halted cfg evs _ (by simp [streamHalted, streamStep])
  · rw [streamRun_cons cfg _ _ st hh]
    rfl

theorem C5_witness :
    (streamInit cfgC5).quit = false ∧ (streamInit cfgC5).aborted = none ∧
    (streamRun cfgC5 [StreamEvent.timeoutExc] (streamInit cfgC5)
        = { streamInit cfgC5 with aborted := some ("Connection timed out") } ∧
      streamRun cfgC5 [StreamEvent.apiError ("boom")] (streamInit cfgC5)
        = { streamInit cfgC5 with aborted := some ("boom") } ∧
      streamRun cfgC5 [StreamEvent.otherError] (streamInit cfgC5)
        = streamRun cfgC5 []
            { streamInit cfgC5 with
                sleeps := (streamInit cfgC5).sleeps ++ [1]
                reconnects := (streamInit cfgC5).reconnects + 1 }) :=
  ⟨rfl, rfl, C5_amended cfgC5 (streamInit cfgC5) ("boom") [] rfl rfl⟩

/-- Claim C10: the user-supplied compresslevel is applied only to the file
opened before the first record (line 1238 passes it; the file stays last in
the most-recent-first list and keeps that level), while every file opened
by a day-boundary rotation is created by the call at line 1257, which omits
the compresslevel argument, so it gets the declared default of 9 regardless
of the configured value. -/
theorem C10_compresslevel (cfg : StreamConfig) (evs : List StreamEvent) :
    (∀ f ∈ (streamRun cfg evs (streamInit cfg)).files.dropLast, f.level = 9) ∧
    (∀ f ∈ (streamRun cfg evs (streamInit cfg)).files.getLast?,
      f.level = cfg.compresslevel) := by
  have hinv := levelsInv_run cfg evs (streamInit cfg) (levelsInv_init cfg)
  exact ⟨hinv.2.1, hinv.2.2⟩

def cfgC10w : StreamConfig := ⟨-1, true, true, 3, 1⟩

def evsC10w : List StreamEvent :=
  [StreamEvent.banner ⟨1, 0, false⟩ 1, StreamEvent.banner ⟨2, 0, false⟩ 2]

theorem C10_witness :
    (⟨2, 9, [(⟨2, 0, false⟩, 2)]⟩ : StreamFile).level = 9 ∧
    (⟨1, 3, [(⟨1, 0, false⟩, 1)]⟩ : StreamFile).level = cfgC10w.compresslevel :=
  ⟨(C10_compresslevel cfgC10w evsC10w).1 _ (by decide),
   (C10_compresslevel cfgC10w evsC10w).2 _ (by rw [Option.mem_def]; decide)⟩

/-! ### Claims about the scan submit command -/

/-- Claim C2: for every exit path of the monitoring session, normal
completion, abort through an exception, or a propagating user interrupt,
exactly one delete-alert call is issued for the alert that was created, and
none is issued when scan submission fails before the subscription is
created or when wait is not positive, because the finally block at lines
964-967 deletes the alert exactly when the variable holds one. -/
theorem C2_cleanup (submitOk : Bool) (wait : Int) (pollDone : Nat → Bool)
    (evs : List ScanEvent) :
    (scan_submit_model submitOk wait pollDone evs).deleteAlertCalls
        = (scan_submit_model submitOk wait pollDone evs).createAlertCalls ∧
    (scan_submit_model submitOk wait pollDone evs).createAlertCalls
        = (if submitOk = true ∧ 0 < wait then 1 else 0) := by
  unfold scan_submit_model
  by_cases h1 : submitOk = false
  · rw [if_pos h1]
    refine ⟨rfl, ?_⟩
    rw [if_neg (by simp [h1])]
  · rw [if_neg h1]
    by_cases h2 : wait ≤ 0
    · rw [if_pos h2]
      refine ⟨rfl, ?_⟩
      rw [if_neg (by
        rintro ⟨hx, hw⟩
        omega)]
    · rw [if_neg h2]
      refine ⟨rfl, ?_⟩
      have hst : submitOk = true := by
        revert h1
        cases submitOk <;> simp
      rw [if_pos ⟨hst, by omega⟩]

/-- Claim C6: within one monitoring session the grouped result table maps
every identity, the rendered ip-or-ipv6 value paired with the port, to the
first banner received with that identity, and holds no entry for any
identity that never occurred; duplicates never overwrite the first-seen
payload.  Stated as an extensional equality between the table lookup and a
first-match search over the received banner sequence. -/
theorem C6_first_seen (wait : Int) (bts : List (ScanBanner × Nat)) (c : String × Nat) :
    hostsGet c.1 c.2
        (scanRun wait (fun _ => false)
          (bts.map (fun q => ScanEvent.banner q.1 q.2)) scanInit).hosts
      = (bts.map Prod.fst).find? (fun b2 => decide (bCell b2 = some c)) := by
  have hbc : CacheInv [] scanInit := by
    intro k
    constructor
    · intro hk
      exact absurd hk (by simp [scanInit])
    · rintro ⟨b2, hb2, _⟩
      exact absurd hb2 (by simp)
  have hbh : HostsInv [] scanInit := by
    intro c2
    simp [scanInit, hostsGet]
  have hres := scanRun_banners_inv wait bts [] scanInit rfl rfl rfl hbc hbh
  have hcc := hres c
  simpa using hcc

/-- Claim C7: a banner lacking both the ip and the ipv6 field is skipped by
the guard at lines 825-827: it changes nothing, neither the dedup cache nor
the result table nor the control flags, and the session simply continues
with the remaining events. -/
theorem C7_unidentifiable (wait : Int) (pd : Nat → Bool) (st : ScanState) (b : ScanBanner)
    (t : Nat) (evs : List ScanEvent) (h1 : b.ip = none) (h2 : b.ipv6 = none)
    (hd : st.done = false) (ha : st.aborted = none) (hi : st.interrupted = false) :
    scanStep wait pd st (ScanEvent.banner b t) = st ∧
    scanRun wait pd (ScanEvent.banner b t :: evs) st = scanRun wait pd evs st := by
  have hip : bannerIp b = none := by
    unfold bannerIp
    rw [h1, h2]
  have hcond : ¬ (ipTruthy (bannerIp b) = true) := by
    rw [hip]
    simp [ipTruthy]
  have hstep : scanStep wait pd st (ScanEvent.banner b t) = st := by
    simp only [scanStep]
    rw [if_neg hcond]
  refine ⟨hstep, ?_⟩
  rw [scanRun_cons wait pd _ evs st (scanHalted_false st hd ha hi), hstep]

def bw7 : ScanBanner := { ip := none, ipv6 := none, port := 80, payload := 4 }

theorem C7_witness :
    bw7.ip = none ∧ bw7.ipv6 = none ∧
    (scanStep 20 (fun _ => false) scanInit (ScanEvent.banner bw7 5) = scanInit ∧
      scanRun 20 (fun _ => false) [ScanEvent.banner bw7 5] scanInit
        = scanRun 20 (fun _ => false) [] scanInit) :=
  ⟨rfl, rfl, C7_unidentifiable 20 (fun _ => false) scanInit bw7 5 [] rfl rfl rfl rfl rfl⟩

def bw8 : ScanBanner := ⟨some (.strVal ("1.2.3.4")), none, 80, 7⟩

/-- Claim C8: the claim is right about reconnection and termination, but
the code omits the pause its own comment promises.  A socket timeout at
elapsed time 10 with wait 20 reconnects (the reconnect counter rises) and
the session continues to process the next banner, with no sleep recorded,
although the comment at lines 866-867 says the code will wait a second
before trying to connect again; a socket timeout at elapsed 25, at or past
the wait window, ends the session normally with no status poll. -/
theorem C8_timeout_reconnects_without_pause :
    (scanRun 20 (fun _ => false) [ScanEvent.sockTimeout 10, ScanEvent.banner bw8 11]
        scanInit).reconnects = 1 ∧
    (scanRun 20 (fun _ => false) [ScanEvent.sockTimeout 10, ScanEvent.banner bw8 11]
        scanInit).sleepsMs = [] ∧
    (scanRun 20 (fun _ => false) [ScanEvent.sockTimeout 10, ScanEvent.banner bw8 11]
        scanInit).done = false ∧
    (scanRun 20 (fun _ => false) [ScanEvent.sockTimeout 10, ScanEvent.banner bw8 11]
        scanInit).aborted = none ∧
    (scanRun 20 (fun _ => false) [ScanEvent.sockTimeout 10, ScanEvent.banner bw8 11]
        scanInit).hosts = [(("1.2.3.4" : String), [(80, bw8)])] ∧
    (scanRun 20 (fun _ => false) [ScanEvent.sockTimeout 25] scanInit).done = true ∧
    (scanRun 20 (fun _ => false) [ScanEvent.sockTimeout 25] scanInit).polls = [] := by
  decide

def bw9c : ScanBanner := ⟨some (.strVal ("5.6.7.8")), none, 443, 2⟩

/-- Claim C9, as stated, is false on the code: crossing the sixty-second
mark does not by itself trigger a status poll, because the check at lines
835-844 runs only while a banner is being processed.  With wait 300 and a
scan that the service reports DONE from the start, a session that receives
one banner at elapsed 10 and then silence until the channel times out at
300 ends with no status poll at all: the session lasted the full wait
window even though the scan was DONE long before. -/
theorem C9_counterexample :
    (scanRun 300 (fun _ => true) [ScanEvent.banner bw9c 10, ScanEvent.sockTimeout 300]
        scanInit).done = true ∧
    (scanRun 300 (fun _ => true) [ScanEvent.banner bw9c 10, ScanEvent.sockTimeout 300]
        scanInit).polls = [] ∧
    (scanRun 300 (fun _ => true) [ScanEvent.banner bw9c 10, ScanEvent.sockTimeout 300]
        scanInit).cache ≠ [] := by
  decide

theorem recordBanner_polls (st : ScanState) (b : ScanBanner) :
    (recordBanner st b).polls = st.polls := by
  unfold recordBanner
  split_ifs <;> simp

/-- Claim C9 amended: the status poll is driven by record arrivals: every
identifiable banner processed at elapsed time at least 60 triggers a poll,
and when that poll reports DONE the session stops at once, before touching
any further event, whatever the configured wait (for example 300). -/
theorem C9_amended (wait : Int) (pd : Nat → Bool) (st : ScanState) (b : ScanBanner) (t : Nat)
    (evs : List ScanEvent)
    (hd : st.done = false) (ha : st.aborted = none) (hi : st.interrupted = false)
    (hb : ipTruthy (bannerIp b) = true) (ht : 60 ≤ t) (hp : pd t = true) :
    scanRun wait pd (ScanEvent.banner b t :: evs) st = pollCheck pd (recordBanner st b) t ∧
    (pollCheck pd (recordBanner st b) t).done = true ∧
    (pollCheck pd (recordBanner st b) t).polls = st.polls ++ [t] := by
  have hpoll : pollCheck pd (recordBanner st b) t
      = { recordBanner st b with
          polls := (recordBanner st b).polls ++ [t]
          done := true } := by
    unfold pollCheck
    rw [if_pos ht, if_pos hp]
  refine ⟨?_, ?_, ?_⟩
  · rw [scanRun_cons wait pd _ evs st (scanHalted_false st hd ha hi)]
    have hstep : scanStep wait pd st (ScanEvent.banner b t)
        = pollCheck pd (recordBanner st b) t := by
      simp only [scanStep, if_pos hb]
    rw [hstep]
    apply scanRun_halted
    rw [hpoll]
    simp [scanHalted]
  · rw [hpoll]
  · rw [hpoll]
    simp [recordBanner_polls]

def bw9 : ScanBanner := ⟨some (.strVal ("9.9.9.9")), none, 22, 3⟩

theorem C9_witness :
    scanInit.done = false ∧ ipTruthy (bannerIp bw9) = true ∧ (60 : Nat) ≤ 61 ∧
    (scanRun 300 (fun _ => true) [ScanEvent.banner bw9 61] scanInit
        = pollCheck (fun _ => true) (recordBanner scanInit bw9) 61 ∧
      (pollCheck (fun _ => true) (recordBanner scanInit bw9) 61).done = true ∧
      (pollCheck (fun _ => true) (recordBanner scanInit bw9) 61).polls
        = scanInit.polls ++ [61]) :=
  ⟨rfl, by decide, by decide,
   C9_amended 300 (fun _ => true) scanInit bw9 61 [] rfl rfl rfl (by decide) (by decide) rfl⟩

end ShodanCLI
